import Mathlib

/-!
Verification of the CogniFy retrieval core (`backend/app/services/rag_service.py`)
against its natural-language specification.

Modelling conventions (shallow embedding):
* Python floats (similarity scores, RRF weights) are modelled as exact rationals `ℚ`.
* The PostgreSQL data store is modelled as a list of `DbChunk` rows; the per-query
  quantities the SQL computes on a row (`1 - (embedding <op> $1)` similarity, the
  `ts_rank_cd` score, and the `@@ to_tsquery` match test) are abstract functions
  supplied as parameters, since they are computed by external extensions (pgvector,
  full-text search) outside the repository.  The `WHERE` / `ORDER BY` / `LIMIT` /
  `ROW_NUMBER` structure of each SQL statement is modelled faithfully.
* SQL `ORDER BY` and Python's stable `list.sort` are modelled by
  `List.insertionSort`, a stable sort.
* Python dictionaries (insertion-ordered, overwrite-on-rewrite) are modelled by
  explicit insertion-ordered association operations.
* `asyncpg` raises when a query references a parameter index that was not bound or
  binds a parameter of the wrong type; the fallible searches therefore return
  `Except String _`, with `Except.error` standing for a raised exception.
-/

namespace CogniFy

/-- The `SearchMethod` enum from `rag_service.py`. -/
inductive SearchMethod where
  | vector
  | bm25
  | hybrid
deriving Repr, DecidableEq

/-- The `SimilarityMethod` enum from `rag_service.py`. -/
inductive SimilarityMethod where
  | cosine
  | euclidean
  | dot
deriving Repr, DecidableEq

/-- The `SearchResult` dataclass: a single search result with metadata. -/
structure SearchResult where
  chunk_id : Nat
  document_id : Nat
  content : String
  score : ℚ
  page_number : Option Nat
  section_title : Option String
  document_title : Option String
  document_filename : Option String
  vector_rank : Option Nat := none
  bm25_rank : Option Nat := none
  rrf_score : Option ℚ := none
deriving Repr, DecidableEq

/-- The `RAGSettings` dataclass with its Python default field values. -/
structure RAGSettings where
  search_method : SearchMethod := .hybrid
  similarity_method : SimilarityMethod := .cosine
  similarity_threshold : ℚ := 3/10
  max_chunks : Nat := 10
  bm25_weight : ℚ := 2/5
  vector_weight : ℚ := 3/5
  rrf_k : Nat := 60
  include_metadata : Bool := true
deriving Repr, DecidableEq

/-- A row of the joined `document_chunks c JOIN documents d` table, carrying the
columns the two search SQL statements read. -/
structure DbChunk where
  chunk_id : Nat
  document_id : Nat
  content : String
  page_number : Option Nat
  section_title : Option String
  document_title : Option String
  document_filename : Option String
  is_deleted : Bool
  processing_status : String
  uploaded_by : Nat
  has_embedding : Bool
deriving Repr, DecidableEq

/-- Python truthiness of the `user_id: Optional[UUID]` argument
(a `UUID` object is always truthy). -/
def user_truthy (user_id : Option Nat) : Bool :=
  user_id.isSome

/-- Python truthiness of the `document_ids: Optional[List[UUID]]` argument
(`None` and the empty list are both falsy). -/
def doc_ids_truthy : Option (List Nat) → Bool
  | none => false
  | some [] => false
  | some (_ :: _) => true

/-- Python truthiness of the `query_embedding: Optional[List[float]]` value
(`None` and the empty list are both falsy, so `if not query_embedding: return []`
fires on both). -/
def embedding_falsy : Option (List ℚ) → Bool
  | none => true
  | some [] => true
  | some (_ :: _) => false

/-- Python `str.strip()`: remove leading and trailing whitespace. -/
def py_strip (s : String) : String :=
  String.mk ((s.data.dropWhile Char.isWhitespace).reverse.dropWhile
    Char.isWhitespace).reverse

/-- The method `EmbeddingService.get_embedding` (from `embedding_service.py`): returns `None`
for an empty/whitespace-only text (`if not text or not text.strip()`), otherwise
consults caches and model backends, modelled by the abstract `backend` function
applied to the stripped text. -/
def get_embedding (backend : String → Option (List ℚ)) (text : String) :
    Option (List ℚ) :=
  if py_strip text = "" then none else backend (py_strip text)

/-- Worker for `py_split`: walk the characters, accumulating the current word
reversed in `cur`, emitting a word at each whitespace run boundary. -/
def py_split_go : List Char → List Char → List String
  | [], cur => if cur.isEmpty then [] else [String.mk cur.reverse]
  | c :: rest, cur =>
    if c.isWhitespace then
      if cur.isEmpty then py_split_go rest []
      else String.mk cur.reverse :: py_split_go rest []
    else py_split_go rest (c :: cur)

/-- Python `str.split()` with no separator: split on whitespace runs,
discarding empty pieces (leading/trailing whitespace yields nothing, so a
preceding `str.strip()` is a no-op for it). -/
def py_split (s : String) : List String :=
  py_split_go s.data []

/-- Python `sep.join(parts)`. -/
def py_join (sep : String) : List String → String
  | [] => ""
  | [x] => x
  | x :: y :: rest => x ++ sep ++ py_join sep (y :: rest)

/-- Lines 248-255 of `rag_service.py`: whitespace-split the stripped query,
append `:*` to each token, and join with `" & "`; no escaping of the token text
is performed.  Returns `none` when there are no tokens (the code returns `[]`
before assembling a tsquery). -/
def bm25_tsquery (query : String) : Option String :=
  let query_words := py_split (py_strip query)
  if query_words.isEmpty then none
  else
    let tsquery_parts := (query_words.filter (fun w => w ≠ "")).map (fun w => w ++ ":*")
    some (py_join " & " tsquery_parts)

/-- A conservative check that a token consists only of ASCII alphanumerics, so
that `token:*` is a syntactically valid `to_tsquery('simple', ...)` input.
Tokens containing tsquery operator characters (`:`, `&`, `|`, `!`, `(`, `)`,
`*`, `'`) fail this check and break the assembled query's syntax. -/
def tsquery_safe_word (w : String) : Bool :=
  w.toList.all (fun c => c.isAlphanum)

/-- The document-scope predicate shared by both search SQL statements:
`d.is_deleted = false AND d.processing_status = 'completed'`, plus the optional
owner filter and document-id allow-list. -/
def in_scope (user_id : Option Nat) (document_ids : Option (List Nat))
    (c : DbChunk) : Bool :=
  !c.is_deleted && c.processing_status == "completed" &&
    (if user_truthy user_id then c.uploaded_by == user_id.getD 0 else true) &&
    (if doc_ids_truthy document_ids then
      (document_ids.getD []).contains c.document_id else true)

/-- Stable descending sort by a rational key: models both SQL `ORDER BY ... DESC`
and Python's stable `list.sort(..., reverse=True)`. -/
def sort_desc (key : α → ℚ) (l : List α) : List α :=
  l.insertionSort (fun a b => key b ≤ key a)

/-- SQL `ROW_NUMBER() OVER (ORDER BY ...)`: attach 1-based ranks to an
already-ordered list. -/
def attach_ranks (i : Nat) : List DbChunk → List (DbChunk × Nat)
  | [] => []
  | c :: cs => (c, i) :: attach_ranks (i + 1) cs

/-- In `vector_search`, the `$N` placeholder indices for the similarity
threshold and the `LIMIT` are computed by string arithmetic (lines 185-192)
while the parameter list is built positionally (lines 196-208).  The two agree
exactly when `document_ids` is falsy; when `document_ids` is truthy the SQL
references `$5` with only four parameters bound (no `user_id`), or compares
`similarity_score` against the `document_ids` array (with `user_id`), and the
driver raises.  This predicate is true exactly when the bound parameters match
the placeholders. -/
def vector_params_consistent (document_ids : Option (List Nat)) : Bool :=
  !doc_ids_truthy document_ids

/-- Build the `SearchResult` rows of `vector_search` (lines 214-227). -/
def vector_row (c : DbChunk) (sim : DbChunk → ℚ) (rank : Nat) : SearchResult :=
  { chunk_id := c.chunk_id
    document_id := c.document_id
    content := c.content
    score := sim c
    page_number := c.page_number
    section_title := c.section_title
    document_title := c.document_title
    document_filename := c.document_filename
    vector_rank := some rank }

/-- Method `RAGService.vector_search`: pure vector similarity search.  `sim c` stands
for the SQL expression `1 - (c.embedding <op> $1::vector)`.  The CTE orders the
in-scope rows by distance ascending (= similarity descending) and assigns
`ROW_NUMBER` ranks; the outer query keeps rows with
`similarity_score >= similarity_threshold`, orders by similarity descending and
applies `LIMIT max_chunks`. -/
def vector_search (db : List DbChunk) (sim : DbChunk → ℚ)
    (backend : String → Option (List ℚ)) (query : String)
    (settings : RAGSettings) (user_id : Option Nat)
    (document_ids : Option (List Nat)) : Except String (List SearchResult) :=
  if embedding_falsy (get_embedding backend query) then .ok []
  else if !vector_params_consistent document_ids then
    .error "PostgresError: could not determine data type of parameter"
  else
    let qualifying := db.filter (fun c => in_scope user_id document_ids c && c.has_embedding)
    let ranked := attach_ranks 1 (sort_desc sim qualifying)
    let filtered := ranked.filter (fun p => settings.similarity_threshold ≤ sim p.1)
    .ok ((filtered.take settings.max_chunks).map (fun p => vector_row p.1 sim p.2))

/-- Build the `SearchResult` rows of `bm25_search` (lines 313-326). -/
def bm25_row (c : DbChunk) (bscore : DbChunk → ℚ) (rank : Nat) : SearchResult :=
  { chunk_id := c.chunk_id
    document_id := c.document_id
    content := c.content
    score := bscore c
    page_number := c.page_number
    section_title := c.section_title
    document_title := c.document_title
    document_filename := c.document_filename
    bm25_rank := some rank }

/-- Method `RAGService.bm25_search`: keyword search via PostgreSQL full text.
`ts_match ts c` stands for `to_tsvector('simple', c.content) @@ to_tsquery('simple', ts)`
and `bscore c` for the `ts_rank_cd(..., 32)` score, both computed by the data
store on the assembled tsquery string.  Empty token list returns `[]` before any
SQL; the CTE ranks matching in-scope rows by score descending, the outer query
orders by score descending and applies `LIMIT max_chunks` (here the placeholder
arithmetic via `param_idx` is consistent for every scope combination). -/
def bm25_search (db : List DbChunk) (ts_match : String → DbChunk → Bool)
    (bscore : DbChunk → ℚ) (query : String) (settings : RAGSettings)
    (user_id : Option Nat) (document_ids : Option (List Nat)) :
    List SearchResult :=
  match bm25_tsquery query with
  | none => []
  | some tsquery =>
    let qualifying := db.filter (fun c => in_scope user_id document_ids c && ts_match tsquery c)
    let ranked := attach_ranks 1 (sort_desc bscore qualifying)
    (ranked.take settings.max_chunks).map (fun p => bm25_row p.1 bscore p.2)

/-- Helper for `rank_map`: the 1-based rank (counted from start value `i`) of
the last occurrence of `cid`, or `none` when absent. -/
def rank_map_from (i : Nat) (cid : Nat) : List SearchResult → Option Nat
  | [] => none
  | r :: rest =>
    match rank_map_from (i + 1) cid rest with
    | some n => some n
    | none => if r.chunk_id == cid then some i else none

/-- The rank-map dict comprehension
`{r.chunk_id: i + 1 for i, r in enumerate(results)}` followed by `.get(cid)`:
the 1-based position of the last occurrence of `cid` (later dict writes for a
duplicate key overwrite earlier ones), `none` when absent. -/
def rank_map (results : List SearchResult) (cid : Nat) : Option Nat :=
  rank_map_from 1 cid results

/-- The position (0-based) of the first entry with the given chunk id in a
result list — the chunk's rank, for comparing relative ranks in an ordering. -/
def chunk_pos (l : List SearchResult) (cid : Nat) : Nat :=
  l.findIdx (fun r => r.chunk_id == cid)

/-- One step of `all_chunks[r.chunk_id] = r` on an insertion-ordered dict:
overwrite in place if the key exists, else append. -/
def dict_upsert (acc : List SearchResult) (r : SearchResult) : List SearchResult :=
  if acc.any (fun x => x.chunk_id == r.chunk_id) then
    acc.map (fun x => if x.chunk_id == r.chunk_id then r else x)
  else acc ++ [r]

/-- Lines 377-383: build `all_chunks` — every vector result is written
unconditionally, then each bm25 result is written only
`if r.chunk_id not in all_chunks`.  The returned list is the dict's values in
insertion order. -/
def union_chunks (vector_results bm25_results : List SearchResult) :
    List SearchResult :=
  let after_vector := vector_results.foldl dict_upsert []
  bm25_results.foldl
    (fun acc r =>
      if acc.any (fun x => x.chunk_id == r.chunk_id) then acc else acc ++ [r])
    after_vector

/-- The weighted RRF score of lines 393-398:
`vector_weight * (1/(k + v_rank))` when a vector rank exists plus
`bm25_weight * (1/(k + b_rank))` when a bm25 rank exists, an absent rank
contributing `0`. -/
def rrf_score_of (settings : RAGSettings) (v_rank b_rank : Option Nat) : ℚ :=
  (match v_rank with
   | some vr => settings.vector_weight * (1 / ((settings.rrf_k : ℚ) + vr))
   | none => 0) +
  (match b_rank with
   | some br => settings.bm25_weight * (1 / ((settings.rrf_k : ℚ) + br))
   | none => 0)

/-- Lines 389-406: attach ranks and the RRF score to one unioned result
(the Python code mutates `result` in place; modelled as a functional update). -/
def with_rrf (settings : RAGSettings) (vector_results bm25_results : List SearchResult)
    (r : SearchResult) : SearchResult :=
  let v_rank := rank_map vector_results r.chunk_id
  let b_rank := rank_map bm25_results r.chunk_id
  let s := rrf_score_of settings v_rank b_rank
  { r with vector_rank := v_rank, bm25_rank := b_rank,
           rrf_score := some s, score := s }

/-- The sort key of line 409, `lambda x: x.rrf_score or 0`: Python `or` yields
`0` when `rrf_score` is `None` or `0.0` (both falsy), which numerically equals
`Option.getD _ 0`. -/
def rrf_sort_key (r : SearchResult) : ℚ :=
  r.rrf_score.getD 0

/-- The fused, RRF-scored, descending-sorted candidate list of
`hybrid_search` (lines 369-409), before the final `[:max_chunks]` cut. -/
def rrf_ranked (settings : RAGSettings)
    (vector_results bm25_results : List SearchResult) : List SearchResult :=
  sort_desc rrf_sort_key
    ((union_chunks vector_results bm25_results).map
      (with_rrf settings vector_results bm25_results))

/-- The pure fusion step of `hybrid_search`: RRF-score the union of the two
sub-result lists, sort descending, truncate to `max_chunks` (line 411). -/
def rrf_fuse (settings : RAGSettings)
    (vector_results bm25_results : List SearchResult) : List SearchResult :=
  (rrf_ranked settings vector_results bm25_results).take settings.max_chunks

/-- The sub-settings `hybrid_search` passes to `vector_search` (lines 353-357):
a fresh `RAGSettings` with only `similarity_method`, `similarity_threshold`
and a doubled `max_chunks` supplied, everything else defaulted. -/
def hybrid_vector_settings (settings : RAGSettings) : RAGSettings :=
  { similarity_method := settings.similarity_method
    similarity_threshold := settings.similarity_threshold
    max_chunks := settings.max_chunks * 2 }

/-- The sub-settings `hybrid_search` passes to `bm25_search` (line 364). -/
def hybrid_bm25_settings (settings : RAGSettings) : RAGSettings :=
  { max_chunks := settings.max_chunks * 2 }

/-- Method `RAGService.hybrid_search`: run both sub-searches (each over-fetching
`2 * max_chunks`), then fuse with weighted RRF.  An exception raised by the
vector sub-search propagates. -/
def hybrid_search (db : List DbChunk) (sim : DbChunk → ℚ)
    (ts_match : String → DbChunk → Bool) (bscore : DbChunk → ℚ)
    (backend : String → Option (List ℚ)) (query : String)
    (settings : RAGSettings) (user_id : Option Nat)
    (document_ids : Option (List Nat)) : Except String (List SearchResult) :=
  match vector_search db sim backend query (hybrid_vector_settings settings)
      user_id document_ids with
  | .error e => .error e
  | .ok vector_results =>
    let bm25_results := bm25_search db ts_match bscore query
      (hybrid_bm25_settings settings) user_id document_ids
    .ok (rrf_fuse settings vector_results bm25_results)

/-- Method `RAGService.search`: pure dispatch on `settings.search_method`. -/
def search (db : List DbChunk) (sim : DbChunk → ℚ)
    (ts_match : String → DbChunk → Bool) (bscore : DbChunk → ℚ)
    (backend : String → Option (List ℚ)) (query : String)
    (settings : RAGSettings) (user_id : Option Nat)
    (document_ids : Option (List Nat)) : Except String (List SearchResult) :=
  match settings.search_method with
  | .vector => vector_search db sim backend query settings user_id document_ids
  | .bm25 => .ok (bm25_search db ts_match bscore query settings user_id document_ids)
  | .hybrid => hybrid_search db sim ts_match bscore backend query settings user_id document_ids

/-- Python truthiness of `result.document_title: Optional[str]`
(`None` and `""` are falsy). -/
def title_truthy : Option String → Bool
  | none => false
  | some t => !t.data.isEmpty

/-- Python truthiness of `result.page_number: Optional[int]`
(`None` and `0` are falsy). -/
def page_truthy : Option Nat → Bool
  | none => false
  | some p => p != 0

/-- Lines 447-455 of `build_context`: the rendered block for the `i`-th result
(1-based): a citation header `[i]` or `[i: title(, p.N)]`, a newline, the full
chunk content, a trailing newline. -/
def render_block (i : Nat) (r : SearchResult) : String :=
  let source :=
    if title_truthy r.document_title then
      "[" ++ toString i ++ ": " ++ r.document_title.getD "" ++
        (if page_truthy r.page_number then
          ", p." ++ toString (r.page_number.getD 0) else "") ++ "]"
    else "[" ++ toString i ++ "]"
  source ++ "\n" ++ r.content ++ "\n"

/-- The rendered blocks of a result list, with 1-based citation numbers
starting at `i`. -/
def render_blocks (i : Nat) : List SearchResult → List String
  | [] => []
  | r :: rest => render_block i r :: render_blocks (i + 1) rest

/-- Total character length of a list of rendered blocks (the sum the loop's
`current_length` accumulates — separators are not counted). -/
def blocks_len (parts : List String) : Nat :=
  (parts.map String.length).sum

/-- The accumulation loop of `build_context` (lines 446-463): starting at
citation number `i` with `current_length = cur`, greedily take whole rendered
blocks while `current_length + chunk_length ≤ max_context_length`, breaking at
the first block that would overflow.  Returns `(context_parts, used_results)`. -/
def context_loop (i cur : Nat) (maxLen : Int) :
    List SearchResult → List String × List SearchResult
  | [] => ([], [])
  | r :: rest =>
    let block := render_block i r
    if (cur : Int) + block.length > maxLen then ([], [])
    else
      let next := context_loop (i + 1) (cur + block.length) maxLen rest
      (block :: next.1, r :: next.2)

/-- The pure assembly step of `build_context` (lines 438-467): given the ranked
`results` from `search`, return `("", [])` when empty, otherwise accumulate
whole blocks within the budget and join them with `"\n---\n"`. -/
def assemble_context (results : List SearchResult) (maxLen : Int) :
    String × List SearchResult :=
  if results.isEmpty then ("", [])
  else
    let acc := context_loop 1 0 maxLen results
    (py_join "\n---\n" acc.1, acc.2)

/-- Method `RAGService.build_context`: search, then assemble a citation-annotated,
length-budgeted context string; returns the context and the results used. -/
def build_context (db : List DbChunk) (sim : DbChunk → ℚ)
    (ts_match : String → DbChunk → Bool) (bscore : DbChunk → ℚ)
    (backend : String → Option (List ℚ)) (query : String)
    (settings : RAGSettings) (user_id : Option Nat)
    (document_ids : Option (List Nat)) (max_context_length : Int) :
    Except String (String × List SearchResult) :=
  match search db sim ts_match bscore backend query settings user_id document_ids with
  | .error e => .error e
  | .ok results => .ok (assemble_context results max_context_length)

/-! ### Inputs for concrete instantiations

Scenario A of the specification (§8): chunk `A` is 1st in vector search and 3rd
in keyword search; chunk `B` is 1st in keyword search and absent from vector
results; chunk `C` is 2nd in keyword search. -/

/-- Scenario A, chunk A: vector rank 1, keyword rank 3. -/
def scenario_A : SearchResult :=
  { chunk_id := 10, document_id := 1, content := "A", score := 9/10,
    page_number := none, section_title := none, document_title := none,
    document_filename := none, vector_rank := some 1 }

/-- Scenario A, chunk B: keyword rank 1 only. -/
def scenario_B : SearchResult :=
  { chunk_id := 20, document_id := 1, content := "B", score := 8/10,
    page_number := none, section_title := none, document_title := none,
    document_filename := none, bm25_rank := some 1 }

/-- Scenario A, chunk C: keyword rank 2 only. -/
def scenario_C : SearchResult :=
  { chunk_id := 30, document_id := 1, content := "C", score := 7/10,
    page_number := none, section_title := none, document_title := none,
    document_filename := none, bm25_rank := some 2 }

/-- Scenario A settings: `vector_weight = 0.6`, `bm25_weight = 0.4`,
`rrf_k = 60` (the defaults). -/
def scenario_settings : RAGSettings := { search_method := .hybrid }

/-- A bm25-side row for the same chunk id as `scenario_A` but with different
denormalized payload, to exhibit which side's row survives the union. -/
def scenario_A_bm : SearchResult :=
  { scenario_A with
    content := "A-from-keyword-side", document_id := 2,
    vector_rank := none, bm25_rank := some 3 }

/-- A one-row database used to instantiate universally quantified theorems. -/
def demo_chunk : DbChunk :=
  { chunk_id := 1, document_id := 1, content := "alpha beta", page_number := none,
    section_title := none, document_title := none, document_filename := none,
    is_deleted := false, processing_status := "completed", uploaded_by := 7,
    has_embedding := true }

/-- A second database row with a lower similarity score in the demos. -/
def demo_chunk2 : DbChunk :=
  { chunk_id := 2, document_id := 1, content := "gamma", page_number := none,
    section_title := none, document_title := none, document_filename := none,
    is_deleted := false, processing_status := "completed", uploaded_by := 7,
    has_embedding := true }

/-- A demo similarity function: chunk 1 scores 0.8, chunk 2 scores 0.1,
anything else 0. -/
def demo_sim (c : DbChunk) : ℚ :=
  if c.chunk_id == 1 then 4/5 else if c.chunk_id == 2 then 1/10 else 0

/-- A demo keyword-relevance score: chunk 1 scores 2, chunk 2 scores 3. -/
def demo_bscore (c : DbChunk) : ℚ :=
  if c.chunk_id == 1 then 2 else 3

/-- A demo full-text match predicate: every chunk matches. -/
def demo_match (_ts : String) (_c : DbChunk) : Bool := true

/-- A demo embedding backend returning a constant vector. -/
def demo_backend (_t : String) : Option (List ℚ) := some [1, 0]

/-- Decidable equality for `Except` outcomes, so concrete search runs can be
checked by `decide`. -/
instance {ε α : Type} [DecidableEq ε] [DecidableEq α] :
    DecidableEq (Except ε α) := fun a b =>
  match a, b with
  | .ok x, .ok y =>
    if h : x = y then .isTrue (by rw [h]) else .isFalse (by simp [h])
  | .error x, .error y =>
    if h : x = y then .isTrue (by rw [h]) else .isFalse (by simp [h])
  | .ok _, .error _ => .isFalse (by simp)
  | .error _, .ok _ => .isFalse (by simp)

/-! ### Generic list lemmas -/

/-- Sorting with `sort_desc` is a permutation of its input. -/
theorem sort_desc_perm (key : α → ℚ) (l : List α) : (sort_desc key l).Perm l :=
  List.perm_insertionSort _ l

/-- Membership is preserved by `sort_desc`. -/
theorem mem_sort_desc {key : α → ℚ} {l : List α} {x : α} :
    x ∈ sort_desc key l ↔ x ∈ l :=
  (sort_desc_perm key l).mem_iff

/-- Sorting with `sort_desc` yields a list whose keys are pairwise descending. -/
theorem sort_desc_pairwise (key : α → ℚ) (l : List α) :
    (sort_desc key l).Pairwise (fun a b => key b ≤ key a) := by
  haveI : IsTotal α (fun a b => key b ≤ key a) := ⟨fun a b => le_total (key b) (key a)⟩
  haveI : IsTrans α (fun a b => key b ≤ key a) :=
    ⟨fun _ _ _ h1 h2 => le_trans h2 h1⟩
  exact List.sorted_insertionSort _ l

/-- The first components of `attach_ranks i l` are exactly `l`. -/
theorem attach_ranks_map_fst (i : Nat) (l : List DbChunk) :
    (attach_ranks i l).map Prod.fst = l := by
  induction l generalizing i with
  | nil => rfl
  | cons c cs ih => simp [attach_ranks, ih]

/-- Ranks attached by `attach_ranks i` are at least `i`. -/
theorem attach_ranks_rank_ge (i : Nat) (l : List DbChunk) :
    ∀ p ∈ attach_ranks i l, i ≤ p.2 := by
  induction l generalizing i with
  | nil => intro p hp; cases hp
  | cons c cs ih =>
    intro p hp
    rcases List.mem_cons.mp hp with h | hp
    · rw [h]
    · exact le_trans (Nat.le_succ i) (ih (i + 1) p hp)

/-- A pairwise relation on chunks transfers to `attach_ranks`. -/
theorem attach_ranks_pairwise {R : DbChunk → DbChunk → Prop} {l : List DbChunk}
    (h : l.Pairwise R) (i : Nat) :
    (attach_ranks i l).Pairwise (fun p q => R p.1 q.1) := by
  have : ((attach_ranks i l).map Prod.fst).Pairwise R := by
    rw [attach_ranks_map_fst]; exact h
  exact (List.pairwise_map.mp this)

/-! ### C1: keyword-query token sanitization -/

/-- Claim C1 (code-bug evidence). The claim states that every whitespace-split
token is escaped/sanitized before the conjunctive prefix-match tsquery is
assembled.  The code (lines 248-255) performs no sanitization: for the query
`"a:b"` the assembled string passed as the `to_tsquery('simple', $1)` argument
is exactly `"a:b:*"`, containing the raw token `"a:b"` whose `:` breaks tsquery
syntax (`tsquery_safe_word` rejects it), so `to_tsquery` raises a syntax error
at the data store. -/
theorem C1_tokens_not_sanitized :
    bm25_tsquery "a:b" = some "a:b:*" ∧ tsquery_safe_word "a:b" = false := by
  constructor <;> rfl

/-! ### C3: vector-search threshold enforcement -/

/-- Every row of the vector-search pipeline output passed the
`similarity_score >= $threshold` filter. -/
theorem vector_search_score_ge_threshold
    (db : List DbChunk) (sim : DbChunk → ℚ) (backend : String → Option (List ℚ))
    (query : String) (settings : RAGSettings) (user_id : Option Nat)
    (document_ids : Option (List Nat)) (rs : List SearchResult)
    (h : vector_search db sim backend query settings user_id document_ids = .ok rs) :
    ∀ r ∈ rs, settings.similarity_threshold ≤ r.score := by
  unfold vector_search at h
  split at h
  · injection h with h
    subst h
    intro r hr
    cases hr
  · split at h
    · cases h
    · injection h with h
      subst h
      intro r hr
      rcases List.mem_map.mp hr with ⟨p, hp, hrow⟩
      have hpf := List.of_mem_filter (List.mem_of_mem_take hp)
      simp only [decide_eq_true_eq] at hpf
      rw [← hrow]
      simpa [vector_row] using hpf

/-- Claim C3: for every query, settings and scope filter, every `SearchResult`
returned by vector search has `score ≥ settings.similarity_threshold`.
(When the call raises — which it does for a truthy `document_ids` filter, see
`vector_params_consistent` — no results are returned, so the property is about
the `.ok` outcome.) -/
theorem C3_vector_threshold
    (db : List DbChunk) (sim : DbChunk → ℚ) (backend : String → Option (List ℚ))
    (query : String) (settings : RAGSettings) (user_id : Option Nat)
    (document_ids : Option (List Nat)) (rs : List SearchResult)
    (h : vector_search db sim backend query settings user_id document_ids = .ok rs) :
    ∀ r ∈ rs, settings.similarity_threshold ≤ r.score :=
  vector_search_score_ge_threshold db sim backend query settings user_id
    document_ids rs h

unseal Rat.mul Rat.add Rat.inv in
/-- Witness for C3 at a concrete input: a two-chunk database where only chunk 1
clears the default threshold `0.3`. -/
theorem C3_vector_threshold_witness :
    (({ search_method := .vector } : RAGSettings)).similarity_threshold ≤
      (vector_row demo_chunk demo_sim 1).score :=
  C3_vector_threshold [demo_chunk, demo_chunk2] demo_sim demo_backend "alpha"
    { search_method := .vector } (some 7) none [vector_row demo_chunk demo_sim 1]
    (by decide) (vector_row demo_chunk demo_sim 1) (by simp)

/-! ### C6: result-count cap -/

/-- Claim C6: for every query, settings and scope filter, each of the three search
modes returns at most `settings.max_chunks` results (`LIMIT` for the two SQL
searches, the `[:max_chunks]` slice for hybrid). -/
theorem C6_max_chunks_cap (db : List DbChunk) (sim : DbChunk → ℚ)
    (ts_match : String → DbChunk → Bool) (bscore : DbChunk → ℚ)
    (backend : String → Option (List ℚ)) (query : String)
    (settings : RAGSettings) (user_id : Option Nat)
    (document_ids : Option (List Nat)) :
    (∀ rs, vector_search db sim backend query settings user_id document_ids = .ok rs →
      rs.length ≤ settings.max_chunks) ∧
    (bm25_search db ts_match bscore query settings user_id document_ids).length ≤
      settings.max_chunks ∧
    (∀ rs, hybrid_search db sim ts_match bscore backend query settings user_id
        document_ids = .ok rs → rs.length ≤ settings.max_chunks) := by
  refine ⟨?_, ?_, ?_⟩
  · intro rs h
    unfold vector_search at h
    split at h
    · injection h with h
      subst h
      exact Nat.zero_le _
    · split at h
      · cases h
      · injection h with h
        subst h
        simp
  · unfold bm25_search
    split
    · exact Nat.zero_le _
    · simp
  · intro rs h
    unfold hybrid_search at h
    split at h
    · cases h
    · injection h with h
      subst h
      exact List.length_take_le _ _

unseal Rat.mul Rat.add Rat.inv in
/-- Witness for C6 at a concrete input (the bm25 and hybrid conjuncts applied to
a two-chunk corpus with the default settings). -/
theorem C6_max_chunks_cap_witness :
    (bm25_search [demo_chunk, demo_chunk2] demo_match demo_bscore "alpha"
      scenario_settings (some 7) none).length ≤ scenario_settings.max_chunks ∧
    [vector_row demo_chunk demo_sim 1].length ≤ scenario_settings.max_chunks :=
  ⟨(C6_max_chunks_cap [demo_chunk, demo_chunk2] demo_sim demo_match demo_bscore
      demo_backend "alpha" scenario_settings (some 7) none).2.1,
   (C6_max_chunks_cap [demo_chunk, demo_chunk2] demo_sim demo_match demo_bscore
      demo_backend "alpha" scenario_settings (some 7) none).1
     [vector_row demo_chunk demo_sim 1] (by decide)⟩

/-! ### C8: graceful degradation on empty queries -/

/-- Claim C8: an empty (or whitespace-only) query makes the embedding provider
return `None`, and vector search returns `ok []` for any query whose embedding
is falsy; keyword search on a query with zero whitespace tokens returns `[]`;
hybrid search on an empty query returns `ok []`.  No branch raises. -/
theorem C8_empty_query (db : List DbChunk) (sim : DbChunk → ℚ)
    (ts_match : String → DbChunk → Bool) (bscore : DbChunk → ℚ)
    (backend : String → Option (List ℚ)) (settings : RAGSettings)
    (user_id : Option Nat) (document_ids : Option (List Nat)) :
    (∀ query, py_strip query = "" →
      get_embedding backend query = none) ∧
    (∀ query, embedding_falsy (get_embedding backend query) = true →
      vector_search db sim backend query settings user_id document_ids = .ok []) ∧
    (∀ query, py_split (py_strip query) = [] →
      bm25_search db ts_match bscore query settings user_id document_ids = []) ∧
    (∀ query, py_strip query = "" →
      hybrid_search db sim ts_match bscore backend query settings user_id
        document_ids = .ok []) := by
  refine ⟨?_, ?_, ?_, ?_⟩
  · intro query hq
    simp [get_embedding, hq]
  · intro query hq
    simp [vector_search, hq]
  · intro query hq
    simp [bm25_search, bm25_tsquery, hq]
  · intro query hq
    have hemb : get_embedding backend query = none := by simp [get_embedding, hq]
    have hv : vector_search db sim backend query (hybrid_vector_settings settings)
        user_id document_ids = .ok [] := by
      simp [vector_search, hemb, embedding_falsy]
    have hsplit : py_split (py_strip query) = [] := by
      rw [hq]
      rfl
    have hb : bm25_search db ts_match bscore query (hybrid_bm25_settings settings)
        user_id document_ids = [] := by
      simp [bm25_search, bm25_tsquery, hsplit]
    unfold hybrid_search
    rw [hv, hb]
    simp [rrf_fuse, rrf_ranked, union_chunks, sort_desc]

/-! ### RRF fusion lemmas -/

/-- Every entry of the fused candidate list carries the weighted RRF score
computed from its ranks in the two sub-result lists, both in `score` and in
`rrf_score`. -/
theorem mem_rrf_ranked_score (s : RAGSettings) (v b : List SearchResult)
    (r : SearchResult) (h : r ∈ rrf_ranked s v b) :
    r.score = rrf_score_of s (rank_map v r.chunk_id) (rank_map b r.chunk_id) ∧
    r.rrf_score = some r.score := by
  unfold rrf_ranked at h
  rw [mem_sort_desc] at h
  rcases List.mem_map.mp h with ⟨r0, _, hw⟩
  subst hw
  exact ⟨rfl, rfl⟩

/-- The fused candidate list is sorted descending by `score`. -/
theorem rrf_ranked_sorted (s : RAGSettings) (v b : List SearchResult) :
    (rrf_ranked s v b).Pairwise (fun a c => c.score ≤ a.score) := by
  have hp : (rrf_ranked s v b).Pairwise
      (fun a c => rrf_sort_key c ≤ rrf_sort_key a) :=
    sort_desc_pairwise rrf_sort_key _
  refine hp.imp_of_mem ?_
  intro a c ha hc hle
  have hka := (mem_rrf_ranked_score s v b a ha).2
  have hkc := (mem_rrf_ranked_score s v b c hc).2
  unfold rrf_sort_key at hle
  rwa [hka, hkc] at hle

/-! ### C7: descending order by the defining score -/

/-- Claim C7: each of the three search modes returns a list sorted descending by
its defining score (similarity for vector, keyword relevance for bm25, the RRF
score — copied into `score` — for hybrid); ties may appear in any order. -/
theorem C7_sorted_desc (db : List DbChunk) (sim : DbChunk → ℚ)
    (ts_match : String → DbChunk → Bool) (bscore : DbChunk → ℚ)
    (backend : String → Option (List ℚ)) (query : String)
    (settings : RAGSettings) (user_id : Option Nat)
    (document_ids : Option (List Nat)) :
    (∀ rs, vector_search db sim backend query settings user_id document_ids = .ok rs →
      rs.Pairwise (fun a c => c.score ≤ a.score)) ∧
    (bm25_search db ts_match bscore query settings user_id document_ids).Pairwise
      (fun a c => c.score ≤ a.score) ∧
    (∀ rs, hybrid_search db sim ts_match bscore backend query settings user_id
        document_ids = .ok rs → rs.Pairwise (fun a c => c.score ≤ a.score)) := by
  refine ⟨?_, ?_, ?_⟩
  · intro rs h
    unfold vector_search at h
    split at h
    · injection h with h
      subst h
      exact List.Pairwise.nil
    · split at h
      · cases h
      · injection h with h
        subst h
        refine List.pairwise_map.mpr ?_
        refine List.Pairwise.sublist (List.take_sublist _ _) ?_
        refine List.Pairwise.filter _ ?_
        exact attach_ranks_pairwise (sort_desc_pairwise sim _) 1
  · unfold bm25_search
    split
    · exact List.Pairwise.nil
    · refine List.pairwise_map.mpr ?_
      refine List.Pairwise.sublist (List.take_sublist _ _) ?_
      exact attach_ranks_pairwise (sort_desc_pairwise bscore _) 1
  · intro rs h
    unfold hybrid_search at h
    split at h
    · cases h
    · injection h with h
      subst h
      exact List.Pairwise.sublist (List.take_sublist _ _)
        (rrf_ranked_sorted settings _ _)

unseal Rat.mul Rat.add Rat.inv in
/-- Witness for C7: concrete two-chunk runs of the vector and hybrid modes plus
the bm25 conjunct. -/
theorem C7_sorted_desc_witness :
    (bm25_search [demo_chunk, demo_chunk2] demo_match demo_bscore "alpha"
      scenario_settings (some 7) none).Pairwise (fun a c => c.score ≤ a.score) ∧
    [vector_row demo_chunk demo_sim 1].Pairwise (fun a c => c.score ≤ a.score) :=
  ⟨(C7_sorted_desc [demo_chunk, demo_chunk2] demo_sim demo_match demo_bscore
      demo_backend "alpha" scenario_settings (some 7) none).2.1,
   (C7_sorted_desc [demo_chunk, demo_chunk2] demo_sim demo_match demo_bscore
      demo_backend "alpha" scenario_settings (some 7) none).1
     [vector_row demo_chunk demo_sim 1] (by decide)⟩

/-! ### C2: the weighted RRF scoring formula and Scenario A -/

unseal Rat.mul Rat.add Rat.inv in
/-- Claim C2: every chunk in the hybrid output carries the weighted RRF score:
`vector_weight * (1/(rrf_k + vector_rank))` when a vector rank exists plus
`bm25_weight * (1/(rrf_k + bm25_rank))` when a bm25 rank exists, an absent rank
contributing exactly `0` (see `rrf_score_of`); and in Scenario A (weights
0.6/0.4, `rrf_k = 60`, chunk A at vector rank 1 and keyword rank 3, chunk B
only at keyword rank 1) A scores `0.6*(1/61) + 0.4*(1/63)`, B scores
`0.4*(1/61)`, and A is ranked above B. -/
theorem C2_rrf_formula :
    (∀ (s : RAGSettings) (v b : List SearchResult) (r : SearchResult),
      r ∈ rrf_fuse s v b →
      r.score = rrf_score_of s (rank_map v r.chunk_id) (rank_map b r.chunk_id)) ∧
    (rrf_fuse scenario_settings [scenario_A]
        [scenario_B, scenario_C, scenario_A]).map (fun r => (r.chunk_id, r.score)) =
      [(scenario_A.chunk_id, 3/5 * (1/61) + 2/5 * (1/63)),
       (scenario_B.chunk_id, 2/5 * (1/61)),
       (scenario_C.chunk_id, 2/5 * (1/62))] := by
  constructor
  · intro s v b r hr
    exact (mem_rrf_ranked_score s v b r (List.mem_of_mem_take hr)).1
  · decide

unseal Rat.mul Rat.add Rat.inv in
/-- Witness for C2: the formula conjunct applied to the concrete fused entry of
chunk A in Scenario A. -/
theorem C2_rrf_formula_witness :
    ({ scenario_A with
       vector_rank := some 1, bm25_rank := some 3,
       rrf_score := some (311/19215), score := 311/19215 } : SearchResult).score =
      rrf_score_of scenario_settings
        (rank_map [scenario_A] scenario_A.chunk_id)
        (rank_map [scenario_B, scenario_C, scenario_A] scenario_A.chunk_id) :=
  C2_rrf_formula.1 scenario_settings [scenario_A]
    [scenario_B, scenario_C, scenario_A] _ (by decide)

/-! ### Union lemmas for the hybrid dict -/

/-- When no id of `v` collides with `acc` or repeats, folding the dict write
`all_chunks[r.chunk_id] = r` just appends. -/
theorem foldl_dict_upsert_eq_append (v : List SearchResult) :
    ∀ acc : List SearchResult,
      ((acc ++ v).map SearchResult.chunk_id).Nodup →
      v.foldl dict_upsert acc = acc ++ v := by
  induction v with
  | nil => intro acc _; simp
  | cons r v' ih =>
    intro acc hnd
    have hfresh : ¬ acc.any (fun x => x.chunk_id == r.chunk_id) = true := by
      intro hany
      rcases List.any_eq_true.mp hany with ⟨x, hx, hxid⟩
      have hxid' : x.chunk_id = r.chunk_id := by simpa using hxid
      have : (List.map SearchResult.chunk_id acc).Disjoint
          (List.map SearchResult.chunk_id (r :: v')) := by
        have := hnd
        rw [List.map_append] at this
        exact (List.nodup_append.mp this).2.2
      exact this (List.mem_map_of_mem _ hx)
        (by rw [hxid']; exact List.mem_map_of_mem _ (List.mem_cons_self _ _))
    have hstep : dict_upsert acc r = acc ++ [r] := by
      unfold dict_upsert
      rw [if_neg hfresh]
    have hnd' : (((acc ++ [r]) ++ v').map SearchResult.chunk_id).Nodup := by
      rw [List.append_assoc]
      simpa using hnd
    calc (r :: v').foldl dict_upsert acc
        = v'.foldl dict_upsert (dict_upsert acc r) := rfl
      _ = v'.foldl dict_upsert (acc ++ [r]) := by rw [hstep]
      _ = (acc ++ [r]) ++ v' := ih (acc ++ [r]) hnd'
      _ = acc ++ (r :: v') := by simp

/-- Folding the guarded write `if r.chunk_id not in all_chunks` appends exactly
the rows whose id is absent from the accumulator, provided `b` itself has no
duplicate ids. -/
theorem foldl_insert_absent_eq_append_filter (b : List SearchResult) :
    ∀ acc : List SearchResult,
      (b.map SearchResult.chunk_id).Nodup →
      b.foldl (fun acc r =>
          if acc.any (fun x => x.chunk_id == r.chunk_id) then acc
          else acc ++ [r]) acc =
        acc ++ b.filter (fun r => !(acc.any (fun x => x.chunk_id == r.chunk_id))) := by
  induction b with
  | nil => intro acc _; simp
  | cons r b' ih =>
    intro acc hnd
    have hndb' : (b'.map SearchResult.chunk_id).Nodup :=
      (List.nodup_cons.mp (by simpa using hnd)).2
    have hrid : r.chunk_id ∉ b'.map SearchResult.chunk_id :=
      (List.nodup_cons.mp (by simpa using hnd)).1
    by_cases hmem : acc.any (fun x => x.chunk_id == r.chunk_id) = true
    · simp only [List.foldl_cons, List.filter_cons, hmem, if_true, Bool.not_true]
      simp only [Bool.false_eq_true, if_false]
      exact ih acc hndb'
    · have hmem' : acc.any (fun x => x.chunk_id == r.chunk_id) = false := by
        simpa using hmem
      simp only [List.foldl_cons, List.filter_cons, hmem', Bool.not_false,
        Bool.false_eq_true, if_false, if_true]
      rw [ih (acc ++ [r]) hndb']
      have hfilter : b'.filter (fun x =>
            !((acc ++ [r]).any (fun y => y.chunk_id == x.chunk_id))) =
          b'.filter (fun x => !(acc.any (fun y => y.chunk_id == x.chunk_id))) := by
        apply List.filter_congr
        intro x hx
        have hne : r.chunk_id ≠ x.chunk_id := by
          intro he
          exact hrid (he ▸ List.mem_map_of_mem _ hx)
        simp [List.any_append, List.any_cons, hne, Ne.symm hne]
      rw [hfilter]
      simp [hmem]

/-- Under distinct chunk ids on both sides, the hybrid union is the vector list
followed by the keyword rows whose chunk id the vector side did not produce:
a chunk present in both lists keeps its vector-side row. -/
theorem union_chunks_eq (v b : List SearchResult)
    (hv : (v.map SearchResult.chunk_id).Nodup)
    (hb : (b.map SearchResult.chunk_id).Nodup) :
    union_chunks v b =
      v ++ b.filter (fun r => !(v.any (fun x => x.chunk_id == r.chunk_id))) := by
  unfold union_chunks
  rw [foldl_dict_upsert_eq_append v [] (by simpa using hv)]
  simpa using foldl_insert_absent_eq_append_filter b v hb

/-! ### C9: vector-side precedence in the hybrid union -/

/-- Claim C9: when the same chunk id appears in both sub-result lists, the fused
output entry for it is built from the vector-side row — its content, document
id, page number, section title, document title and filename come from the
vector row — while the keyword side contributes only the bm25 rank used in the
RRF score. -/
theorem C9_vector_precedence (s : RAGSettings) (v b : List SearchResult)
    (r rv rb : SearchResult)
    (hv : (v.map SearchResult.chunk_id).Nodup)
    (hb : (b.map SearchResult.chunk_id).Nodup)
    (hrv : rv ∈ v) (_hrb : rb ∈ b) (hid : rb.chunk_id = rv.chunk_id)
    (hr : r ∈ rrf_fuse s v b) (hrid : r.chunk_id = rv.chunk_id) :
    r.content = rv.content ∧ r.document_id = rv.document_id ∧
    r.page_number = rv.page_number ∧ r.section_title = rv.section_title ∧
    r.document_title = rv.document_title ∧
    r.document_filename = rv.document_filename ∧
    r.bm25_rank = rank_map b rv.chunk_id := by
  have hr' : r ∈ rrf_ranked s v b := List.mem_of_mem_take hr
  unfold rrf_ranked at hr'
  rw [mem_sort_desc] at hr'
  rcases List.mem_map.mp hr' with ⟨r0, hr0, hwr⟩
  rw [union_chunks_eq v b hv hb] at hr0
  have hid0 : r0.chunk_id = rv.chunk_id := by
    rw [← hrid, ← hwr]
    rfl
  rcases List.mem_append.mp hr0 with h0v | h0f
  · have : r0 = rv := List.inj_on_of_nodup_map hv h0v hrv hid0
    subst this
    subst hwr
    exact ⟨rfl, rfl, rfl, rfl, rfl, rfl, rfl⟩
  · exfalso
    have hnone := List.of_mem_filter h0f
    simp only [Bool.not_eq_true'] at hnone
    rw [List.any_eq_false] at hnone
    exact hnone rv hrv (by simp [hid0])

unseal Rat.mul Rat.add Rat.inv in
/-- Witness for C9: in Scenario A with a divergent keyword-side row for chunk A,
the fused entry keeps the vector-side payload. -/
theorem C9_vector_precedence_witness :
    ({ scenario_A with
       vector_rank := some 1, bm25_rank := some 3,
       rrf_score := some (311/19215), score := 311/19215 } : SearchResult).content
        = scenario_A.content ∧
    ({ scenario_A with
       vector_rank := some 1, bm25_rank := some 3,
       rrf_score := some (311/19215), score := 311/19215 } : SearchResult).document_id
        = scenario_A.document_id :=
  have h := C9_vector_precedence scenario_settings [scenario_A]
    [scenario_B, scenario_C, scenario_A_bm]
    { scenario_A with
      vector_rank := some 1, bm25_rank := some 3,
      rrf_score := some (311/19215), score := 311/19215 }
    scenario_A scenario_A_bm (by decide) (by decide) (by decide)
    (by decide) (by decide) (by decide) (by decide)
  ⟨h.1, h.2.1⟩

/-! ### Rank-map lemmas -/

/-- A rank produced by `rank_map_from i` is at least `i`. -/
theorem rank_map_from_le {cid n : Nat} :
    ∀ {l : List SearchResult} {i : Nat}, rank_map_from i cid l = some n → i ≤ n := by
  intro l
  induction l with
  | nil => intro i h; cases h
  | cons r rest ih =>
    intro i h
    unfold rank_map_from at h
    cases hrec : rank_map_from (i + 1) cid rest with
    | some m =>
      rw [hrec] at h
      injection h with h
      subst h
      exact le_trans (Nat.le_succ i) (ih hrec)
    | none =>
      rw [hrec] at h
      by_cases hc : (r.chunk_id == cid) = true
      · rw [if_pos hc] at h
        injection h with h
        omega
      · rw [if_neg hc] at h
        cases h

/-- A chunk id that occurs nowhere in the list has no rank. -/
theorem rank_map_from_none {cid : Nat} :
    ∀ {l : List SearchResult}, cid ∉ l.map SearchResult.chunk_id →
      ∀ i, rank_map_from i cid l = none := by
  intro l
  induction l with
  | nil => intro _ i; rfl
  | cons r rest ih =>
    intro h i
    have hr : r.chunk_id ≠ cid := by
      intro he
      exact h (by rw [← he]; exact List.mem_map_of_mem _ (List.mem_cons_self _ _))
    have hrest : cid ∉ rest.map SearchResult.chunk_id := by
      intro hm
      exact h (by simpa using Or.inr (by simpa using hm))
    unfold rank_map_from
    rw [ih hrest (i + 1)]
    simp [hr]

/-- A chunk id that occurs in the list has a rank at least the start value. -/
theorem rank_map_from_some {cid : Nat} :
    ∀ {l : List SearchResult}, cid ∈ l.map SearchResult.chunk_id →
      ∀ i, ∃ n, rank_map_from i cid l = some n ∧ i ≤ n := by
  intro l
  induction l with
  | nil => intro h; cases h
  | cons r rest ih =>
    intro h i
    cases hrec : rank_map_from (i + 1) cid rest with
    | some m =>
      refine ⟨m, ?_, ?_⟩
      · unfold rank_map_from
        rw [hrec]
      · exact le_trans (Nat.le_succ i) (rank_map_from_le hrec)
    | none =>
      have hr : r.chunk_id = cid := by
        rcases List.mem_map.mp h with ⟨a, ha, hid⟩
        rcases List.mem_cons.mp ha with rfl | hat
        · exact hid
        · exfalso
          have : cid ∈ rest.map SearchResult.chunk_id :=
            hid ▸ List.mem_map_of_mem _ hat
          rcases ih this (i + 1) with ⟨n, hn, _⟩
          rw [hn] at hrec
          cases hrec
      refine ⟨i, ?_, le_refl i⟩
      unfold rank_map_from
      rw [hrec, if_pos (by simp [hr])]

/-- The `rank_map` of an absent id is `none`. -/
theorem rank_map_eq_none {l : List SearchResult} {cid : Nat}
    (h : cid ∉ l.map SearchResult.chunk_id) : rank_map l cid = none :=
  rank_map_from_none h 1

/-- The `rank_map` of a present id is a 1-based rank. -/
theorem rank_map_eq_some {l : List SearchResult} {cid : Nat}
    (h : cid ∈ l.map SearchResult.chunk_id) :
    ∃ n, rank_map l cid = some n ∧ 1 ≤ n :=
  rank_map_from_some h 1

/-! ### Relative positions in a descending-sorted list -/

/-- In a list sorted descending by `key`, an entry class with strictly larger
key value sits strictly before one with a smaller key value. -/
theorem findIdx_lt_of_key_gt {α : Type} (key : α → ℚ) (p q : α → Bool)
    (kx ky : ℚ) :
    ∀ l : List α, l.Pairwise (fun a c => key c ≤ key a) →
      (∃ a ∈ l, p a = true) → (∃ c ∈ l, q c = true) →
      (∀ a ∈ l, p a = true → key a = kx) →
      (∀ c ∈ l, q c = true → key c = ky) →
      ky < kx → l.findIdx p < l.findIdx q := by
  intro l
  induction l with
  | nil =>
    intro _ hp _ _ _ _
    rcases hp with ⟨a, ha, _⟩
    cases ha
  | cons h t ih =>
    intro hpw hp hq hkp hkq hlt
    by_cases hph : p h = true
    · have hqh : q h = false := by
        by_contra hqh'
        have hqh2 : q h = true := by simpa using hqh'
        have e1 := hkp h (List.mem_cons_self _ _) hph
        have e2 := hkq h (List.mem_cons_self _ _) hqh2
        rw [e1] at e2
        exact absurd e2.symm (ne_of_lt hlt)
      simp [List.findIdx_cons, hph, hqh]
    · have hph' : p h = false := by simpa using hph
      by_cases hqh : q h = true
      · exfalso
        rcases hp with ⟨a, ha, hpa⟩
        have hat : a ∈ t := by
          rcases List.mem_cons.mp ha with rfl | hat
          · rw [hph'] at hpa; cases hpa
          · exact hat
        have h1 : key a ≤ key h := (List.pairwise_cons.mp hpw).1 a hat
        have h2 := hkp a ha hpa
        have h3 := hkq h (List.mem_cons_self _ _) hqh
        rw [h2, h3] at h1
        linarith
      · have hqh' : q h = false := by simpa using hqh
        have hpt : ∃ a ∈ t, p a = true := by
          rcases hp with ⟨a, ha, hpa⟩
          rcases List.mem_cons.mp ha with rfl | hat
          · rw [hph'] at hpa; cases hpa
          · exact ⟨a, hat, hpa⟩
        have hqt : ∃ c ∈ t, q c = true := by
          rcases hq with ⟨c, hc, hqc⟩
          rcases List.mem_cons.mp hc with rfl | hct
          · rw [hqh'] at hqc; cases hqc
          · exact ⟨c, hct, hqc⟩
        have hrec := ih (List.pairwise_cons.mp hpw).2 hpt hqt
          (fun a ha hpa => hkp a (List.mem_cons_of_mem _ ha) hpa)
          (fun c hc hqc => hkq c (List.mem_cons_of_mem _ hc) hqc) hlt
        simp only [List.findIdx_cons, hph', hqh', cond_false]
        omega

/-- In a list sorted descending by `key`, if an entry class sits strictly
before another then its key value is at least as large. -/
theorem key_le_of_findIdx_lt {α : Type} (key : α → ℚ) (p q : α → Bool)
    (kx ky : ℚ) :
    ∀ l : List α, l.Pairwise (fun a c => key c ≤ key a) →
      (∀ a ∈ l, p a = true → key a = kx) →
      (∀ c ∈ l, q c = true → key c = ky) →
      (∃ a ∈ l, p a = true) → (∃ c ∈ l, q c = true) →
      l.findIdx p < l.findIdx q → ky ≤ kx := by
  intro l
  induction l with
  | nil =>
    intro _ _ _ hp _ _
    rcases hp with ⟨a, ha, _⟩
    cases ha
  | cons h t ih =>
    intro hpw hkp hkq hp hq hlt
    by_cases hph : p h = true
    · have e1 := hkp h (List.mem_cons_self _ _) hph
      rcases hq with ⟨c, hc, hqc⟩
      rcases List.mem_cons.mp hc with rfl | hct
      · rw [← hkq c (List.mem_cons_self _ _) hqc, ← e1]
      · have h1 : key c ≤ key h := (List.pairwise_cons.mp hpw).1 c hct
        rw [hkq c hc hqc, e1] at h1
        exact h1
    · have hph' : p h = false := by simpa using hph
      by_cases hqh : q h = true
      · exfalso
        simp [List.findIdx_cons, hph', hqh] at hlt
      · have hqh' : q h = false := by simpa using hqh
        have hpt : ∃ a ∈ t, p a = true := by
          rcases hp with ⟨a, ha, hpa⟩
          rcases List.mem_cons.mp ha with rfl | hat
          · rw [hph'] at hpa; cases hpa
          · exact ⟨a, hat, hpa⟩
        have hqt : ∃ c ∈ t, q c = true := by
          rcases hq with ⟨c, hc, hqc⟩
          rcases List.mem_cons.mp hc with rfl | hct
          · rw [hqh'] at hqc; cases hqc
          · exact ⟨c, hct, hqc⟩
        refine ih (List.pairwise_cons.mp hpw).2
          (fun a ha hpa => hkp a (List.mem_cons_of_mem _ ha) hpa)
          (fun c hc hqc => hkq c (List.mem_cons_of_mem _ hc) hqc) hpt hqt ?_
        simp only [List.findIdx_cons, hph', hqh', cond_false] at hlt
        omega

/-! ### Chunk ids surviving the union -/

/-- The chunk ids of `dict_upsert acc r`: unchanged when the id is already a
key, otherwise extended by `r`'s id. -/
theorem ids_dict_upsert (acc : List SearchResult) (r : SearchResult) :
    (dict_upsert acc r).map SearchResult.chunk_id =
      if acc.any (fun x => x.chunk_id == r.chunk_id) then
        acc.map SearchResult.chunk_id
      else acc.map SearchResult.chunk_id ++ [r.chunk_id] := by
  unfold dict_upsert
  by_cases hany : acc.any (fun x => x.chunk_id == r.chunk_id) = true
  · rw [if_pos hany, if_pos hany, List.map_map]
    apply List.map_congr_left
    intro y _
    simp only [Function.comp_apply]
    by_cases he : y.chunk_id = r.chunk_id
    · simp [he]
    · simp [he]
  · rw [if_neg hany, if_neg hany, List.map_append]
    rfl

/-- Any id present in the accumulator, or equal to the written row's id, is
present after `dict_upsert`. -/
theorem mem_ids_dict_upsert {acc : List SearchResult} {r : SearchResult}
    {cid : Nat}
    (h : cid ∈ acc.map SearchResult.chunk_id ∨ cid = r.chunk_id) :
    cid ∈ (dict_upsert acc r).map SearchResult.chunk_id := by
  rw [ids_dict_upsert]
  by_cases hany : acc.any (fun x => x.chunk_id == r.chunk_id) = true
  · rw [if_pos hany]
    rcases h with h | h
    · exact h
    · rcases List.any_eq_true.mp hany with ⟨x, hx, hxe⟩
      have : x.chunk_id = r.chunk_id := by simpa using hxe
      rw [h, ← this]
      exact List.mem_map_of_mem _ hx
  · rw [if_neg hany]
    rcases h with h | h
    · exact List.mem_append_left _ h
    · exact List.mem_append_right _ (by simp [h])

/-- Ids survive the vector-pass fold of `union_chunks`. -/
theorem mem_ids_foldl_upsert (l : List SearchResult) :
    ∀ (acc : List SearchResult) (cid : Nat),
      (cid ∈ acc.map SearchResult.chunk_id ∨ cid ∈ l.map SearchResult.chunk_id) →
      cid ∈ (l.foldl dict_upsert acc).map SearchResult.chunk_id := by
  induction l with
  | nil =>
    intro acc cid h
    rcases h with h | h
    · exact h
    · cases h
  | cons r l' ih =>
    intro acc cid h
    have : cid ∈ (dict_upsert acc r).map SearchResult.chunk_id ∨
        cid ∈ l'.map SearchResult.chunk_id := by
      rcases h with h | h
      · exact Or.inl (mem_ids_dict_upsert (Or.inl h))
      · rcases List.mem_map.mp h with ⟨a, ha, hid⟩
        rcases List.mem_cons.mp ha with rfl | hat
        · exact Or.inl (mem_ids_dict_upsert (Or.inr hid.symm))
        · exact Or.inr (hid ▸ List.mem_map_of_mem _ hat)
    exact ih (dict_upsert acc r) cid this

/-- Ids survive the keyword-pass fold of `union_chunks`. -/
theorem mem_ids_foldl_insert (l : List SearchResult) :
    ∀ (acc : List SearchResult) (cid : Nat),
      (cid ∈ acc.map SearchResult.chunk_id ∨ cid ∈ l.map SearchResult.chunk_id) →
      cid ∈ (l.foldl (fun acc r =>
          if acc.any (fun x => x.chunk_id == r.chunk_id) then acc
          else acc ++ [r]) acc).map SearchResult.chunk_id := by
  induction l with
  | nil =>
    intro acc cid h
    rcases h with h | h
    · exact h
    · cases h
  | cons r l' ih =>
    intro acc cid h
    apply ih
    by_cases hany : acc.any (fun x => x.chunk_id == r.chunk_id) = true
    · simp only [hany, if_true]
      rcases h with h | h
      · exact Or.inl h
      · rcases List.mem_map.mp h with ⟨a, ha, hid⟩
        rcases List.mem_cons.mp ha with rfl | hat
        · rcases List.any_eq_true.mp hany with ⟨x, hx, hxe⟩
          have hxid : x.chunk_id = a.chunk_id := by simpa using hxe
          exact Or.inl (hid ▸ hxid ▸ List.mem_map_of_mem _ hx)
        · exact Or.inr (hid ▸ List.mem_map_of_mem _ hat)
    · have hany' : acc.any (fun x => x.chunk_id == r.chunk_id) = false := by
        simpa using hany
      simp only [hany', Bool.false_eq_true, if_false]
      rcases h with h | h
      · exact Or.inl (by rw [List.map_append]; exact List.mem_append_left _ h)
      · rcases List.mem_map.mp h with ⟨a, ha, hid⟩
        rcases List.mem_cons.mp ha with rfl | hat
        · refine Or.inl ?_
          rw [List.map_append]
          exact List.mem_append_right _ (by simp [hid])
        · exact Or.inr (hid ▸ List.mem_map_of_mem _ hat)

/-- Every chunk id of either sub-result list appears in the union. -/
theorem mem_ids_union_chunks {v b : List SearchResult} {cid : Nat}
    (h : cid ∈ v.map SearchResult.chunk_id ∨ cid ∈ b.map SearchResult.chunk_id) :
    cid ∈ (union_chunks v b).map SearchResult.chunk_id := by
  unfold union_chunks
  apply mem_ids_foldl_insert
  rcases h with h | h
  · exact Or.inl (mem_ids_foldl_upsert v [] cid (Or.inr h))
  · exact Or.inr h

/-- Every chunk id of either sub-result list has an entry in the fused,
sorted candidate list. -/
theorem exists_entry_rrf_ranked (s : RAGSettings) (v b : List SearchResult)
    (cid : Nat)
    (h : cid ∈ v.map SearchResult.chunk_id ∨ cid ∈ b.map SearchResult.chunk_id) :
    ∃ a ∈ rrf_ranked s v b, (a.chunk_id == cid) = true := by
  rcases List.mem_map.mp (mem_ids_union_chunks h) with ⟨r0, hr0, hid⟩
  refine ⟨with_rrf s v b r0, ?_, ?_⟩
  · unfold rrf_ranked
    rw [mem_sort_desc]
    exact List.mem_map_of_mem _ hr0
  · simpa using hid

/-- The sort key of every fused entry with a given chunk id equals the weighted
RRF score of that id's ranks. -/
theorem rrf_ranked_key_eq (s : RAGSettings) (v b : List SearchResult)
    (cid : Nat) :
    ∀ a ∈ rrf_ranked s v b, (a.chunk_id == cid) = true →
      rrf_sort_key a = rrf_score_of s (rank_map v cid) (rank_map b cid) := by
  intro a ha hid
  have h1 := mem_rrf_ranked_score s v b a ha
  have h2 : rrf_sort_key a = a.score := by
    unfold rrf_sort_key
    rw [h1.2]
    rfl
  have hid' : a.chunk_id = cid := by simpa using hid
  rw [h2, h1.1, hid']

/-! ### C5: RRF weight monotonicity -/

/-- Claim C5: with the two sub-result lists, `bm25_weight` and `rrf_k` held
fixed, raising `vector_weight` from `w` to `w' ≥ w` cannot move a chunk that
appears only in the vector results below a chunk that appears only in the
keyword results in the fused descending ordering. -/
theorem C5_weight_monotonic (v b : List SearchResult) (s : RAGSettings)
    (w w' : ℚ) (hww : w ≤ w') (x y : Nat)
    (hxv : x ∈ v.map SearchResult.chunk_id)
    (hxb : x ∉ b.map SearchResult.chunk_id)
    (hyv : y ∉ v.map SearchResult.chunk_id)
    (hyb : y ∈ b.map SearchResult.chunk_id)
    (hbefore : chunk_pos (rrf_ranked { s with vector_weight := w } v b) x <
      chunk_pos (rrf_ranked { s with vector_weight := w } v b) y) :
    chunk_pos (rrf_ranked { s with vector_weight := w' } v b) x <
      chunk_pos (rrf_ranked { s with vector_weight := w' } v b) y := by
  rcases eq_or_lt_of_le hww with heq | hlt
  · subst heq
    exact hbefore
  · obtain ⟨vx, hvx, hvx1⟩ := rank_map_eq_some hxv
    obtain ⟨yb, hby, hby1⟩ := rank_map_eq_some hyb
    have hbx : rank_map b x = none := rank_map_eq_none hxb
    have hvy : rank_map v y = none := rank_map_eq_none hyv
    have hinv : (0 : ℚ) < 1 / ((s.rrf_k : ℚ) + vx) := by
      apply div_pos one_pos
      have h1 : (1 : ℚ) ≤ (vx : ℚ) := by exact_mod_cast hvx1
      have h2 : (0 : ℚ) ≤ (s.rrf_k : ℚ) := Nat.cast_nonneg _
      linarith
    -- score of the x-entries and y-entries at weight u
    have hsx : ∀ u : ℚ, rrf_score_of { s with vector_weight := u }
        (rank_map v x) (rank_map b x) = u * (1 / ((s.rrf_k : ℚ) + vx)) := by
      intro u
      rw [hvx, hbx]
      simp [rrf_score_of]
    have hsy : ∀ u : ℚ, rrf_score_of { s with vector_weight := u }
        (rank_map v y) (rank_map b y) =
          s.bm25_weight * (1 / ((s.rrf_k : ℚ) + yb)) := by
      intro u
      rw [hvy, hby]
      simp [rrf_score_of]
    have hkey : ∀ u : ℚ, ∀ a ∈ rrf_ranked { s with vector_weight := u } v b,
        ((fun r => r.chunk_id == x) a) = true →
        rrf_sort_key a = u * (1 / ((s.rrf_k : ℚ) + vx)) := by
      intro u a ha hid
      rw [rrf_ranked_key_eq _ v b x a ha hid, hsx u]
    have hkey' : ∀ u : ℚ, ∀ c ∈ rrf_ranked { s with vector_weight := u } v b,
        ((fun r => r.chunk_id == y) c) = true →
        rrf_sort_key c = s.bm25_weight * (1 / ((s.rrf_k : ℚ) + yb)) := by
      intro u c hc hid
      rw [rrf_ranked_key_eq _ v b y c hc hid, hsy u]
    have hex : ∀ u : ℚ, ∃ a ∈ rrf_ranked { s with vector_weight := u } v b,
        ((fun r => r.chunk_id == x) a) = true :=
      fun u => exists_entry_rrf_ranked _ v b x (Or.inl hxv)
    have hey : ∀ u : ℚ, ∃ c ∈ rrf_ranked { s with vector_weight := u } v b,
        ((fun r => r.chunk_id == y) c) = true :=
      fun u => exists_entry_rrf_ranked _ v b y (Or.inr hyb)
    have hpw : ∀ u : ℚ, (rrf_ranked { s with vector_weight := u } v b).Pairwise
        (fun a c => rrf_sort_key c ≤ rrf_sort_key a) := by
      intro u
      unfold rrf_ranked
      exact sort_desc_pairwise rrf_sort_key _
    -- from the ordering at weight w: the y-score is at most the x-score at w
    have hylex : s.bm25_weight * (1 / ((s.rrf_k : ℚ) + yb)) ≤
        w * (1 / ((s.rrf_k : ℚ) + vx)) :=
      key_le_of_findIdx_lt rrf_sort_key _ _ _ _
        (rrf_ranked { s with vector_weight := w } v b) (hpw w)
        (hkey w) (hkey' w) (hex w) (hey w) hbefore
    -- at weight w' the x-score strictly exceeds the y-score
    have hstrict : s.bm25_weight * (1 / ((s.rrf_k : ℚ) + yb)) <
        w' * (1 / ((s.rrf_k : ℚ) + vx)) :=
      lt_of_le_of_lt hylex (by
        apply mul_lt_mul_of_pos_right hlt hinv)
    exact findIdx_lt_of_key_gt rrf_sort_key _ _ _ _
      (rrf_ranked { s with vector_weight := w' } v b) (hpw w')
      (hex w') (hey w') (hkey w') (hkey' w') hstrict

unseal Rat.mul Rat.add Rat.inv in
/-- Witness for C5: raising `vector_weight` from 0.6 to 0.8 keeps the
vector-only chunk A above the keyword-only chunk B. -/
theorem C5_weight_monotonic_witness :
    chunk_pos (rrf_ranked { scenario_settings with vector_weight := 4/5 }
      [scenario_A] [scenario_B]) scenario_A.chunk_id <
    chunk_pos (rrf_ranked { scenario_settings with vector_weight := 4/5 }
      [scenario_A] [scenario_B]) scenario_B.chunk_id :=
  C5_weight_monotonic [scenario_A] [scenario_B] scenario_settings (3/5) (4/5)
    (by decide) scenario_A.chunk_id scenario_B.chunk_id (by decide) (by decide)
    (by decide) (by decide) (by decide)

unseal Rat.mul Rat.add Rat.inv in
/-- Witness for C8: the empty query on a concrete corpus. -/
theorem C8_empty_query_witness :
    hybrid_search [demo_chunk, demo_chunk2] demo_sim demo_match demo_bscore
      demo_backend "" scenario_settings (some 7) none = .ok [] :=
  (C8_empty_query [demo_chunk, demo_chunk2] demo_sim demo_match demo_bscore
    demo_backend scenario_settings (some 7) none).2.2.2 "" (by rfl)

/-! ### Context-assembly lemmas -/

/-- Unfolding `blocks_len` over a cons. -/
theorem blocks_len_cons (s : String) (l : List String) :
    blocks_len (s :: l) = s.length + blocks_len l := by
  simp [blocks_len]

/-- The list `render_blocks` produces one block per result. -/
theorem length_render_blocks (l : List SearchResult) :
    ∀ i, (render_blocks i l).length = l.length := by
  induction l with
  | nil => intro i; rfl
  | cons r rest ih => intro i; simp [render_blocks, ih]

/-- Rendering a prefix is a prefix of the rendering. -/
theorem render_blocks_take (l : List SearchResult) :
    ∀ i n, render_blocks i (l.take n) = (render_blocks i l).take n := by
  induction l with
  | nil => intro i n; simp [render_blocks]
  | cons r rest ih =>
    intro i n
    cases n with
    | zero => rfl
    | succ m => simp [render_blocks, ih]

/-- The greedy accumulation loop of `build_context` takes a prefix of the
results, renders exactly those blocks, keeps the running total within the
budget at every accepted block, and stops only at a block that would
overflow. -/
theorem context_loop_spec (maxLen : Int) :
    ∀ (rs : List SearchResult) (i cur : Nat),
      (context_loop i cur maxLen rs).2 =
        rs.take (context_loop i cur maxLen rs).2.length ∧
      (context_loop i cur maxLen rs).1 =
        render_blocks i (rs.take (context_loop i cur maxLen rs).2.length) ∧
      (∀ j < (context_loop i cur maxLen rs).2.length,
        (cur : Int) + (blocks_len ((render_blocks i rs).take (j + 1)) : Int)
          ≤ maxLen) ∧
      ((context_loop i cur maxLen rs).2.length < rs.length →
        (cur : Int) + (blocks_len ((render_blocks i rs).take
          ((context_loop i cur maxLen rs).2.length + 1)) : Int) > maxLen) := by
  intro rs
  induction rs with
  | nil =>
    intro i cur
    refine ⟨rfl, rfl, ?_, ?_⟩
    · intro j hj
      simp [context_loop] at hj
    · intro h
      simp [context_loop] at h
  | cons r rest ih =>
    intro i cur
    have hstep : context_loop i cur maxLen (r :: rest) =
        (if (cur : Int) + ((render_block i r).length : Int) > maxLen then
          ([], [])
        else
          ((render_block i r) :: (context_loop (i + 1)
              (cur + (render_block i r).length) maxLen rest).1,
            r :: (context_loop (i + 1)
              (cur + (render_block i r).length) maxLen rest).2)) := rfl
    by_cases hover : (cur : Int) + ((render_block i r).length : Int) > maxLen
    · have hout : context_loop i cur maxLen (r :: rest) = ([], []) := by
        rw [hstep, if_pos hover]
      rw [hout]
      refine ⟨rfl, rfl, ?_, ?_⟩
      · intro j hj
        simp at hj
      · intro _
        simp only [List.length_nil, Nat.zero_add, render_blocks, List.take_succ_cons,
          List.take_zero, blocks_len_cons]
        simpa [blocks_len] using hover
    · have hout : context_loop i cur maxLen (r :: rest) =
          ((render_block i r) :: (context_loop (i + 1)
              (cur + (render_block i r).length) maxLen rest).1,
            r :: (context_loop (i + 1)
              (cur + (render_block i r).length) maxLen rest).2) := by
        rw [hstep, if_neg hover]
      obtain ⟨ih1, ih2, ih3, ih4⟩ := ih (i + 1) (cur + (render_block i r).length)
      rw [hout]
      refine ⟨?_, ?_, ?_, ?_⟩
      · simp only [List.length_cons, List.take_succ_cons]
        rw [← ih1]
      · simp only [List.length_cons, List.take_succ_cons, render_blocks]
        rw [← ih2]
      · intro j hj
        cases j with
        | zero =>
          simp only [render_blocks, List.take_succ_cons, List.take_zero,
            blocks_len_cons]
          have : blocks_len ([] : List String) = 0 := rfl
          rw [this]
          push_cast
          omega
        | succ j' =>
          simp only [List.length_cons, Nat.succ_lt_succ_iff] at hj
          have h3 := ih3 j' hj
          simp only [render_blocks, List.take_succ_cons, blocks_len_cons]
          push_cast at h3 ⊢
          omega
      · intro hlen
        simp only [List.length_cons, Nat.succ_lt_succ_iff] at hlen
        have h4 := ih4 hlen
        simp only [List.length_cons, render_blocks, List.take_succ_cons,
          blocks_len_cons]
        push_cast at h4 ⊢
        omega

/-- Characterization of `assemble_context` (lines 438-467): `used` is a prefix
of the ranked input, the context is the separator-join of exactly the rendered
blocks of `used`, every accepted block kept the running total within the
budget, and the first excluded block (if any) would have overflowed it. -/
theorem assemble_context_spec (results : List SearchResult) (maxLen : Int) :
    (assemble_context results maxLen).2 =
      results.take (assemble_context results maxLen).2.length ∧
    (assemble_context results maxLen).1 =
      py_join "\n---\n" (render_blocks 1 (assemble_context results maxLen).2) ∧
    (∀ j < (assemble_context results maxLen).2.length,
      (blocks_len ((render_blocks 1 results).take (j + 1)) : Int) ≤ maxLen) ∧
    ((assemble_context results maxLen).2.length < results.length →
      (blocks_len ((render_blocks 1 results).take
        ((assemble_context results maxLen).2.length + 1)) : Int) > maxLen) := by
  by_cases hempty : results.isEmpty
  · have : results = [] := List.isEmpty_iff.mp hempty
    subst this
    refine ⟨rfl, rfl, ?_, ?_⟩
    · intro j hj
      simp [assemble_context, context_loop] at hj
    · intro h
      simp [assemble_context, context_loop] at h
  · obtain ⟨h1, h2, h3, h4⟩ := context_loop_spec maxLen results 1 0
    have hA1 : (assemble_context results maxLen).1 =
        py_join "\n---\n" (context_loop 1 0 maxLen results).1 := by
      unfold assemble_context
      rw [if_neg hempty]
    have hA2 : (assemble_context results maxLen).2 =
        (context_loop 1 0 maxLen results).2 := by
      unfold assemble_context
      rw [if_neg hempty]
    refine ⟨?_, ?_, ?_, ?_⟩
    · rw [hA2]
      exact h1
    · rw [hA1, hA2, h2, ← h1]
    · intro j hj
      rw [hA2] at hj
      have := h3 j hj
      omega
    · intro hlen
      rw [hA2] at hlen ⊢
      have := h4 hlen
      omega

/-! ### C4: the context is a greedy whole-block prefix -/

/-- Claim C4: whenever `build_context` succeeds, `usedResults` is a contiguous
prefix of the ranked list returned by `search` (no reordering, no holes), the
context is the separator-join of exactly the rendered whole blocks of those
results (citation header plus full text, never truncated), blocks are accepted
only while the accumulated length stays within `max_context_length`, and the
loop stops at the first block that would overflow. -/
theorem C4_context_greedy_whole_blocks (db : List DbChunk) (sim : DbChunk → ℚ)
    (ts_match : String → DbChunk → Bool) (bscore : DbChunk → ℚ)
    (backend : String → Option (List ℚ)) (query : String)
    (settings : RAGSettings) (user_id : Option Nat)
    (document_ids : Option (List Nat)) (maxLen : Int)
    (results : List SearchResult) (ctx : String) (used : List SearchResult)
    (hs : search db sim ts_match bscore backend query settings user_id
      document_ids = .ok results)
    (hb : build_context db sim ts_match bscore backend query settings user_id
      document_ids maxLen = .ok (ctx, used)) :
    used = results.take used.length ∧
    ctx = py_join "\n---\n" (render_blocks 1 used) ∧
    (∀ j < used.length,
      (blocks_len ((render_blocks 1 results).take (j + 1)) : Int) ≤ maxLen) ∧
    (used.length < results.length →
      (blocks_len ((render_blocks 1 results).take (used.length + 1)) : Int) >
        maxLen) := by
  unfold build_context at hb
  rw [hs] at hb
  injection hb with hb
  obtain ⟨h1, h2, h3, h4⟩ := assemble_context_spec results maxLen
  have hctx : ctx = (assemble_context results maxLen).1 := by rw [hb]
  have hused : used = (assemble_context results maxLen).2 := by rw [hb]
  subst hctx
  subst hused
  exact ⟨h1, h2, h3, h4⟩

unseal Rat.mul Rat.add Rat.inv in
/-- Witness for C4: a concrete bm25-mode run with budget 12 keeps exactly the
first rendered block (10 characters) and stops before the second (15
characters). -/
theorem C4_context_greedy_whole_blocks_witness :
    ([bm25_row demo_chunk2 demo_bscore 1] : List SearchResult) =
      [bm25_row demo_chunk2 demo_bscore 1,
        bm25_row demo_chunk demo_bscore 2].take 1 ∧
    (blocks_len ((render_blocks 1 [bm25_row demo_chunk2 demo_bscore 1,
      bm25_row demo_chunk demo_bscore 2]).take 2) : Int) > 12 :=
  have h := C4_context_greedy_whole_blocks [demo_chunk, demo_chunk2] demo_sim demo_match
    demo_bscore demo_backend "alpha" { search_method := .bm25 } (some 7) none 12
    [bm25_row demo_chunk2 demo_bscore 1, bm25_row demo_chunk demo_bscore 2]
    "[1]\ngamma\n" [bm25_row demo_chunk2 demo_bscore 1]
    (by decide) (by decide)
  ⟨h.1, h.2.2.2 (by decide)⟩

/-! ### C10: separators are not budgeted -/

/-- Length of a Python-style join: the summed part lengths plus one separator
per gap. -/
theorem py_join_length (sep : String) :
    ∀ parts : List String, parts ≠ [] →
      (py_join sep parts).length =
        blocks_len parts + sep.length * (parts.length - 1) := by
  intro parts
  induction parts with
  | nil => intro h; exact absurd rfl h
  | cons x rest ih =>
    intro _
    cases rest with
    | nil => simp [py_join, blocks_len]
    | cons y rest' =>
      have hih := ih (by simp)
      simp only [List.length_cons, Nat.add_sub_cancel] at hih ⊢
      calc (py_join sep (x :: y :: rest')).length
          = (x ++ sep ++ py_join sep (y :: rest')).length := rfl
        _ = x.length + sep.length + (py_join sep (y :: rest')).length := by
            rw [String.length_append, String.length_append]
        _ = x.length + sep.length +
              (blocks_len (y :: rest') + sep.length * rest'.length) := by
            rw [hih]
        _ = blocks_len (x :: y :: rest') + sep.length * (rest'.length + 1) := by
            simp only [blocks_len_cons]
            ring

/-- Claim C10: the budget loop counts only the rendered blocks, not the
`"\n---\n"` separators inserted by the final join; hence with `n ≥ 2` included
chunks the returned context length equals the accumulated block total plus
`5 * (n - 1)`, and exceeds the budget `max_context_length` by at most
`5 * (n - 1)`. -/
theorem C10_separator_excess (db : List DbChunk) (sim : DbChunk → ℚ)
    (ts_match : String → DbChunk → Bool) (bscore : DbChunk → ℚ)
    (backend : String → Option (List ℚ)) (query : String)
    (settings : RAGSettings) (user_id : Option Nat)
    (document_ids : Option (List Nat)) (maxLen : Int)
    (results : List SearchResult) (ctx : String) (used : List SearchResult)
    (hs : search db sim ts_match bscore backend query settings user_id
      document_ids = .ok results)
    (hb : build_context db sim ts_match bscore backend query settings user_id
      document_ids maxLen = .ok (ctx, used))
    (hn : 2 ≤ used.length) :
    ctx.length = blocks_len (render_blocks 1 used) + 5 * (used.length - 1) ∧
    (ctx.length : Int) ≤ maxLen + 5 * (used.length - 1) := by
  unfold build_context at hb
  rw [hs] at hb
  injection hb with hb
  obtain ⟨h1, h2, h3, h4⟩ := assemble_context_spec results maxLen
  have hctx : ctx = (assemble_context results maxLen).1 := by rw [hb]
  have hused : used = (assemble_context results maxLen).2 := by rw [hb]
  subst hctx
  subst hused
  set out := assemble_context results maxLen with hout
  have hne : render_blocks 1 out.2 ≠ [] := by
    intro he
    have := length_render_blocks out.2 1
    rw [he] at this
    simp at this
    omega
  have hlen : (py_join "\n---\n" (render_blocks 1 out.2)).length =
      blocks_len (render_blocks 1 out.2) +
        5 * ((render_blocks 1 out.2).length - 1) := by
    have := py_join_length "\n---\n" (render_blocks 1 out.2) hne
    simpa using this
  have hcount : (render_blocks 1 out.2).length = out.2.length :=
    length_render_blocks out.2 1
  constructor
  · rw [h2, hlen, hcount]
  · -- the accumulated total is within the budget
    have hj : out.2.length - 1 < out.2.length := by omega
    have h3' := h3 (out.2.length - 1) hj
    have hsucc : out.2.length - 1 + 1 = out.2.length := by omega
    rw [hsucc] at h3'
    have hblocks : (render_blocks 1 results).take out.2.length =
        render_blocks 1 out.2 := by
      conv_rhs => rw [h1]
      rw [render_blocks_take]
    rw [hblocks] at h3'
    rw [h2, hlen, hcount]
    push_cast
    omega

unseal Rat.mul Rat.add Rat.inv in
/-- Witness for C10: with budget 25 both demo blocks (10 and 15 characters) are
accepted, and the joined context has length 30 = 25 + 5 — one separator beyond
the budget. -/
theorem C10_separator_excess_witness :
    ("[1]\ngamma\n\n---\n[2]\nalpha beta\n").length =
      blocks_len (render_blocks 1 [bm25_row demo_chunk2 demo_bscore 1,
        bm25_row demo_chunk demo_bscore 2]) +
        5 * ([bm25_row demo_chunk2 demo_bscore 1,
          bm25_row demo_chunk demo_bscore 2].length - 1) ∧
    (("[1]\ngamma\n\n---\n[2]\nalpha beta\n").length : Int) ≤ 25 +
      5 * ([bm25_row demo_chunk2 demo_bscore 1,
        bm25_row demo_chunk demo_bscore 2].length - 1) :=
  C10_separator_excess [demo_chunk, demo_chunk2] demo_sim demo_match
    demo_bscore demo_backend "alpha" { search_method := .bm25 } (some 7) none 25
    [bm25_row demo_chunk2 demo_bscore 1, bm25_row demo_chunk demo_bscore 2]
    "[1]\ngamma\n\n---\n[2]\nalpha beta\n"
    [bm25_row demo_chunk2 demo_bscore 1, bm25_row demo_chunk demo_bscore 2]
    (by decide) (by decide) (by decide)

end CogniFy
